import Mathlib

/-!
Verification of the task-manager core services: dependency-graph integrity
(`dependency_service.py`), permission resolution (`permission_service.py`,
`cache_service.py`) and workflow validation (`workflow_service.py`,
`api/v1/workflows.py`).  Python identifiers (uuid task ids, role ids, cache
keys) are modelled as `Nat`; soft-delete timestamps (`deleted_at`) as a
boolean tombstone; the Mongo stores as Lean lists in insertion order; the
fallible service calls as `Except String`.
-/

namespace TaskManager

/-- A work item row; `deleted = true` models a non-null `deleted_at`. -/
structure Task where
  id : Nat
  deleted : Bool
  deriving DecidableEq, Repr

/-- A `TaskDependency` row: `task_id` depends on `depends_on_task_id`. -/
structure TaskDependency where
  task_id : Nat
  depends_on_task_id : Nat
  type : String
  deriving DecidableEq, Repr

/-- The ordered edge set of the dependency store. -/
def edgesOf (deps : List TaskDependency) : List (Nat × Nat) :=
  deps.map (fun d => (d.task_id, d.depends_on_task_id))

/-- Targets of the edges leaving `current`: the query
`TaskDependency.find(task_id == current)` projected to `depends_on_task_id`. -/
def depTargets (edges : List (Nat × Nat)) (current : Nat) : List Nat :=
  (edges.filter (fun e => decide (e.1 = current))).map (fun e => e.2)

/-- One iteration of the `while to_check:` loop of `_has_circular_dependency`:
pop the queue front, succeed if it is the target, skip it if already visited,
otherwise mark it visited and enqueue its yet-unvisited dependency targets.
The Python loop has no fuel; fuel is only the termination measure and
`bfsFuel` below is proved sufficient. -/
def bfsStep (edges : List (Nat × Nat)) (target : Nat) :
    Nat → List Nat → List Nat → Bool
  | 0, _, _ => false
  | _ + 1, _, [] => false
  | fuel + 1, visited, current :: rest =>
    if current = target then true
    else if current ∈ visited then bfsStep edges target fuel visited rest
    else
      bfsStep edges target fuel (current :: visited)
        (rest ++ (depTargets edges current).filter
          (fun d => decide (¬ d ∈ current :: visited)))

/-- Fuel sufficient for the breadth-first traversal to run to completion. -/
def bfsFuel (edges : List (Nat × Nat)) : Nat :=
  (edges.length + 1) * (edges.length + 1) + 2

/-- `DependencyService._has_circular_dependency`: breadth-first search over
depends-on edges from `depends_on_task_id`, looking for `task_id`. -/
def hasCircularDependency (deps : List TaskDependency)
    (task_id depends_on_task_id : Nat) : Bool :=
  let edges := edgesOf deps
  bfsStep edges task_id (bfsFuel edges) [] [depends_on_task_id]

/-- `Task.find_one(Task.id == tid, Task.deleted_at == None)`. -/
def findActiveTask (tasks : List Task) (tid : Nat) : Option Task :=
  tasks.find? (fun t => decide (t.id = tid ∧ t.deleted = false))

/-- `DependencyService.create_dependency`.  The Python method raises
`ValueError` (modelled `.error`) before any insert, and inserts the single
new row as its last step (modelled `.ok` with the appended row). -/
def create_dependency (tasks : List Task) (deps : List TaskDependency)
    (task_id depends_on_task_id : Nat) (dependency_type : String) :
    Except String (List TaskDependency) :=
  match findActiveTask tasks task_id with
  | none => .error "Task not found"
  | some _ =>
    match findActiveTask tasks depends_on_task_id with
    | none => .error "Dependency task not found"
    | some _ =>
      if task_id = depends_on_task_id then
        .error "Task cannot depend on itself"
      else if hasCircularDependency deps task_id depends_on_task_id then
        .error "Circular dependency detected"
      else if (deps.find? (fun d =>
          decide (d.task_id = task_id ∧
            d.depends_on_task_id = depends_on_task_id))).isSome then
        .error "Dependency already exists"
      else
        .ok (deps ++ [{ task_id := task_id,
                        depends_on_task_id := depends_on_task_id,
                        type := dependency_type }])

/-- One depends-on step in the edge set. -/
def DependsOn (edges : List (Nat × Nat)) (a b : Nat) : Prop :=
  (a, b) ∈ edges

/-- `b` is reachable from `a` along depends-on edges (zero or more steps). -/
def Reachable (edges : List (Nat × Nat)) : Nat → Nat → Prop :=
  Relation.ReflTransGen (DependsOn edges)

/-- The edge set has no directed cycle. -/
def Acyclic (edges : List (Nat × Nat)) : Prop :=
  ∀ e ∈ edges, ¬ Reachable edges e.2 e.1

/-- Membership in `depTargets` is exactly edge membership. -/
lemma mem_depTargets {edges : List (Nat × Nat)} {c w : Nat} :
    w ∈ depTargets edges c ↔ (c, w) ∈ edges := by
  constructor
  · intro h
    simp only [depTargets, List.mem_map, List.mem_filter, decide_eq_true_eq] at h
    obtain ⟨e, ⟨he, h1⟩, h2⟩ := h
    have he' : e = (c, w) := by cases e; simp_all
    rwa [he'] at he
  · intro h
    simp only [depTargets, List.mem_map, List.mem_filter, decide_eq_true_eq]
    exact ⟨(c, w), ⟨h, rfl⟩, rfl⟩

/-- Soundness of the traversal: a `true` answer exhibits a queue element from
which the target is reachable. -/
lemma bfsStep_sound (edges : List (Nat × Nat)) (target : Nat) :
    ∀ fuel visited queue, bfsStep edges target fuel visited queue = true →
      ∃ s ∈ queue, Reachable edges s target := by
  intro fuel
  induction fuel with
  | zero => intro visited queue h; simp [bfsStep] at h
  | succ n ih =>
    intro visited queue h
    cases queue with
    | nil => simp [bfsStep] at h
    | cons current rest =>
      simp only [bfsStep] at h
      by_cases hct : current = target
      · exact ⟨current, List.mem_cons_self _ _, hct ▸ Relation.ReflTransGen.refl⟩
      · rw [if_neg hct] at h
        by_cases hcv : current ∈ visited
        · rw [if_pos hcv] at h
          obtain ⟨s, hs, hr⟩ := ih _ _ h
          exact ⟨s, List.mem_cons_of_mem _ hs, hr⟩
        · rw [if_neg hcv] at h
          obtain ⟨s, hs, hr⟩ := ih _ _ h
          rcases List.mem_append.mp hs with hs | hs
          · exact ⟨s, List.mem_cons_of_mem _ hs, hr⟩
          · have hst : s ∈ depTargets edges current := (List.mem_filter.mp hs).1
            have hedge : (current, s) ∈ edges := mem_depTargets.mp hst
            exact ⟨current, List.mem_cons_self _ _,
              Relation.ReflTransGen.head hedge hr⟩

/-- Anything reachable from a successor-closed visited set stays inside it. -/
lemma reach_closed {edges : List (Nat × Nat)} {visited : List Nat}
    (hcl : ∀ v ∈ visited, ∀ w, (v, w) ∈ edges → w ∈ visited) :
    ∀ {s t : Nat}, Reachable edges s t → s ∈ visited → t ∈ visited := by
  intro s t h
  induction h with
  | refl => exact fun hs => hs
  | tail _ hlast ih => intro hs; exact hcl _ (ih hs) _ hlast

/-- Termination measure of the traversal: unvisited universe weighted by the
largest possible enqueue burst, plus the queue length. -/
def bfsMeasure (edges : List (Nat × Nat)) (univ visited queue : List Nat) : Nat :=
  (univ.filter (fun x => decide (¬ x ∈ visited))).length * (edges.length + 1)
    + queue.length

lemma filter_length_le_filter {l : List Nat} {p q : Nat → Bool}
    (h : ∀ x, p x = true → q x = true) :
    (l.filter p).length ≤ (l.filter q).length := by
  induction l with
  | nil => simp
  | cons a t ih =>
    by_cases hpa : p a = true
    · rw [List.filter_cons_of_pos hpa, List.filter_cons_of_pos (h a hpa)]
      simpa using ih
    · rw [List.filter_cons_of_neg (by simpa using hpa)]
      by_cases hqa : q a = true
      · rw [List.filter_cons_of_pos hqa]
        exact le_trans ih (Nat.le_succ _)
      · rw [List.filter_cons_of_neg (by simpa using hqa)]
        exact ih

lemma filter_length_lt_filter {l : List Nat} {p q : Nat → Bool}
    (h : ∀ x, p x = true → q x = true) {a : Nat} (hal : a ∈ l)
    (hqa : q a = true) (hpa : p a = false) :
    (l.filter p).length < (l.filter q).length := by
  induction l with
  | nil => cases hal
  | cons b t ih =>
    rcases List.mem_cons.mp hal with rfl | hat
    · rw [List.filter_cons_of_neg (by simp [hpa]), List.filter_cons_of_pos hqa]
      exact Nat.lt_succ_of_le (filter_length_le_filter h)
    · by_cases hpb : p b = true
      · rw [List.filter_cons_of_pos hpb, List.filter_cons_of_pos (h b hpb)]
        exact Nat.succ_lt_succ (ih hat)
      · rw [List.filter_cons_of_neg (by simpa using hpb)]
        by_cases hqb : q b = true
        · rw [List.filter_cons_of_pos hqb]
          exact Nat.lt_succ_of_lt (ih hat)
        · rw [List.filter_cons_of_neg (by simpa using hqb)]
          exact ih hat

/-- Completeness of the traversal: with enough fuel, a visited set closed
under successors (up to the queue) and a reachable target force `true`. -/
lemma bfsStep_complete (edges : List (Nat × Nat)) (target : Nat)
    (univ : List Nat) (hU : ∀ e ∈ edges, e.2 ∈ univ) :
    ∀ fuel visited queue,
      bfsMeasure edges univ visited queue < fuel →
      (∀ x ∈ queue, x ∈ univ) →
      target ∉ visited →
      (∀ v ∈ visited, ∀ w, (v, w) ∈ edges → w ∈ visited ∨ w ∈ queue) →
      (∃ s, (s ∈ visited ∨ s ∈ queue) ∧ Reachable edges s target) →
      bfsStep edges target fuel visited queue = true := by
  intro fuel
  induction fuel with
  | zero => intro visited queue hm; exact absurd hm (Nat.not_lt_zero _)
  | succ n ih =>
    intro visited queue hm hq htv hcl hex
    cases queue with
    | nil =>
      exfalso
      obtain ⟨s, hs, hr⟩ := hex
      rcases hs with hs | hs
      · have hclosed : ∀ v ∈ visited, ∀ w, (v, w) ∈ edges → w ∈ visited := by
          intro v hv w hw
          rcases hcl v hv w hw with h | h
          · exact h
          · cases h
        exact htv (reach_closed hclosed hr hs)
      · cases hs
    | cons current rest =>
      simp only [bfsStep]
      by_cases hct : current = target
      · rw [if_pos hct]
      · rw [if_neg hct]
        by_cases hcv : current ∈ visited
        · rw [if_pos hcv]
          apply ih
          · simp only [bfsMeasure, List.length_cons] at hm ⊢
            omega
          · intro x hx; exact hq x (List.mem_cons_of_mem _ hx)
          · exact htv
          · intro v hv w hw
            rcases hcl v hv w hw with h | h
            · exact Or.inl h
            · rcases List.mem_cons.mp h with rfl | h
              · exact Or.inl hcv
              · exact Or.inr h
          · obtain ⟨s, hs, hr⟩ := hex
            refine ⟨s, ?_, hr⟩
            rcases hs with h | h
            · exact Or.inl h
            · rcases List.mem_cons.mp h with rfl | h
              · exact Or.inl hcv
              · exact Or.inr h
        · rw [if_neg hcv]
          apply ih
          · -- strict decrease of the measure when a new node is visited
            have hcu : current ∈ univ := hq current (List.mem_cons_self _ _)
            have hstrict :
                (univ.filter (fun x => decide (¬ x ∈ current :: visited))).length
                  < (univ.filter (fun x => decide (¬ x ∈ visited))).length := by
              apply filter_length_lt_filter
              · intro x hx
                simp only [decide_eq_true_eq, List.mem_cons, not_or] at hx ⊢
                exact hx.2
              · exact hcu
              · simp [hcv]
              · simp
            have hfd :
                ((depTargets edges current).filter
                  (fun d => decide (¬ d ∈ current :: visited))).length
                  ≤ edges.length := by
              calc ((depTargets edges current).filter
                    (fun d => decide (¬ d ∈ current :: visited))).length
                  ≤ (depTargets edges current).length :=
                    List.length_filter_le _ _
                _ ≤ edges.length := by
                    simp only [depTargets, List.length_map]
                    exact List.length_filter_le _ _
            have hmul :
                ((univ.filter (fun x => decide (¬ x ∈ current :: visited))).length + 1)
                    * (edges.length + 1)
                  ≤ (univ.filter (fun x => decide (¬ x ∈ visited))).length
                    * (edges.length + 1) :=
              Nat.mul_le_mul_right _ hstrict
            simp only [bfsMeasure, List.length_cons, List.length_append] at hm ⊢
            rw [Nat.succ_mul] at hmul
            omega
          · intro x hx
            rcases List.mem_append.mp hx with hx | hx
            · exact hq x (List.mem_cons_of_mem _ hx)
            · have hxt : x ∈ depTargets edges current := (List.mem_filter.mp hx).1
              exact hU _ (mem_depTargets.mp hxt)
          · intro h
            rcases List.mem_cons.mp h with rfl | h
            · exact hct rfl
            · exact htv h
          · intro v hv w hw
            rcases List.mem_cons.mp hv with rfl | hv
            · by_cases hwv : w ∈ v :: visited
              · exact Or.inl hwv
              · refine Or.inr (List.mem_append.mpr (Or.inr ?_))
                exact List.mem_filter.mpr ⟨mem_depTargets.mpr hw, by simpa using hwv⟩
            · rcases hcl v hv w hw with h | h
              · exact Or.inl (List.mem_cons_of_mem _ h)
              · rcases List.mem_cons.mp h with rfl | h
                · exact Or.inl (List.mem_cons_self _ _)
                · exact Or.inr (List.mem_append.mpr (Or.inl h))
          · obtain ⟨s, hs, hr⟩ := hex
            refine ⟨s, ?_, hr⟩
            rcases hs with h | h
            · exact Or.inl (List.mem_cons_of_mem _ h)
            · rcases List.mem_cons.mp h with rfl | h
              · exact Or.inl (List.mem_cons_self _ _)
              · exact Or.inr (List.mem_append.mpr (Or.inl h))

/-- The circular-dependency check answers exactly reachability of `task`
from `dep` in the existing edge set. -/
lemma hasCircular_iff_reachable (deps : List TaskDependency) (task dep : Nat) :
    hasCircularDependency deps task dep = true ↔
      Reachable (edgesOf deps) dep task := by
  constructor
  · intro h
    obtain ⟨s, hs, hr⟩ := bfsStep_sound _ _ _ _ _ h
    rcases List.mem_singleton.mp hs with rfl
    exact hr
  · intro hr
    show bfsStep (edgesOf deps) task (bfsFuel (edgesOf deps)) [] [dep] = true
    apply bfsStep_complete (edgesOf deps) task
      (dep :: (edgesOf deps).map (fun e => e.2))
    · intro e he
      exact List.mem_cons_of_mem _ (List.mem_map.mpr ⟨e, he, rfl⟩)
    · have hfilter :
          ((dep :: (edgesOf deps).map (fun e => e.2)).filter
            (fun x => decide (¬ x ∈ ([] : List Nat)))) =
          dep :: (edgesOf deps).map (fun e => e.2) := by
        simp
      simp only [bfsMeasure, hfilter, List.length_cons, List.length_map,
        List.length_nil, bfsFuel]
      omega
    · intro x hx
      rcases List.mem_singleton.mp hx with rfl
      exact List.mem_cons_self _ _
    · simp
    · intro v hv; cases hv
    · exact ⟨dep, Or.inr (List.mem_singleton.mpr rfl), hr⟩

/-- Reachability is monotone under appending an edge. -/
lemma reachable_mono {G : List (Nat × Nat)} {e : Nat × Nat} {x y : Nat}
    (h : Reachable G x y) : Reachable (G ++ [e]) x y :=
  Relation.ReflTransGen.mono
    (fun _ _ hab => List.mem_append.mpr (Or.inl hab)) h

/-- A walk in the graph extended with edge `(u, v)` either stays in the old
graph or decomposes around the new edge. -/
lemma reachable_append_elim {G : List (Nat × Nat)} {u v x y : Nat}
    (h : Reachable (G ++ [(u, v)]) x y) :
    Reachable G x y ∨ (Reachable G x u ∧ Reachable G v y) := by
  induction h with
  | refl => exact Or.inl Relation.ReflTransGen.refl
  | tail _ hlast ih =>
    rcases List.mem_append.mp hlast with hG | hnew
    · rcases ih with h | ⟨h1, h2⟩
      · exact Or.inl (h.tail hG)
      · exact Or.inr ⟨h1, h2.tail hG⟩
    · have heq := List.mem_singleton.mp hnew
      simp only [Prod.mk.injEq] at heq
      obtain ⟨rfl, rfl⟩ := heq
      rcases ih with h | ⟨h1, _⟩
      · exact Or.inr ⟨h, Relation.ReflTransGen.refl⟩
      · exact Or.inr ⟨h1, Relation.ReflTransGen.refl⟩

/-- Inserting `(u, v)` into an acyclic graph keeps it acyclic provided `u`
is not reachable from `v`. -/
lemma acyclic_insert {G : List (Nat × Nat)} {u v : Nat}
    (hac : Acyclic G) (hnr : ¬ Reachable G v u) :
    Acyclic (G ++ [(u, v)]) := by
  intro e he hrev
  rcases List.mem_append.mp he with heG | henew
  · rcases reachable_append_elim hrev with h | ⟨h1, h2⟩
    · exact hac e heG h
    · have hstep : DependsOn G e.1 e.2 := by
        simpa [DependsOn] using heG
      exact hnr ((h2.tail hstep).trans h1)
  · have he' : e = (u, v) := List.mem_singleton.mp henew
    subst he'
    rcases reachable_append_elim hrev with h | ⟨h1, _⟩
    · exact hnr h
    · exact hnr h1

lemma edgesOf_append (deps : List TaskDependency) (d : TaskDependency) :
    edgesOf (deps ++ [d]) = edgesOf deps ++ [(d.task_id, d.depends_on_task_id)] := by
  simp [edgesOf]

/-- C1: on an acyclic edge set, `create_dependency` either rejects with an
error (leaving the store unchanged) or inserts exactly the requested edge and
the result is still acyclic; and if the edge `(a, b)` already exists then,
for both existing non-deleted tasks and any dependency type, the reversed
insertion `create_dependency(b, a, _)` fails with the cycle validation error
and no row is inserted. -/
theorem create_dependency_acyclic_invariant
    (tasks : List Task) (deps : List TaskDependency)
    (task_id depends_on_task_id : Nat) (dependency_type : String)
    (hac : Acyclic (edgesOf deps)) :
    ((∃ msg, create_dependency tasks deps task_id depends_on_task_id
        dependency_type = .error msg) ∨
      (create_dependency tasks deps task_id depends_on_task_id dependency_type
          = .ok (deps ++ [{ task_id := task_id,
                            depends_on_task_id := depends_on_task_id,
                            type := dependency_type }]) ∧
        Acyclic (edgesOf (deps ++ [{ task_id := task_id,
                                     depends_on_task_id := depends_on_task_id,
                                     type := dependency_type }])))) ∧
    (∀ a b : Nat, (a, b) ∈ edgesOf deps → a ≠ b →
      findActiveTask tasks a ≠ none → findActiveTask tasks b ≠ none →
      ∀ ty2 : String, create_dependency tasks deps b a ty2
        = .error "Circular dependency detected") := by
  constructor
  · unfold create_dependency
    cases hft : findActiveTask tasks task_id with
    | none => exact Or.inl ⟨_, rfl⟩
    | some t =>
      cases hfd : findActiveTask tasks depends_on_task_id with
      | none => exact Or.inl ⟨_, rfl⟩
      | some t2 =>
        by_cases heq : task_id = depends_on_task_id
        · rw [if_pos heq]; exact Or.inl ⟨_, rfl⟩
        · rw [if_neg heq]
          by_cases hcirc :
              hasCircularDependency deps task_id depends_on_task_id = true
          · rw [if_pos hcirc]; exact Or.inl ⟨_, rfl⟩
          · rw [if_neg hcirc]
            by_cases hdup : (deps.find? (fun d =>
                decide (d.task_id = task_id ∧
                  d.depends_on_task_id = depends_on_task_id))).isSome = true
            · rw [if_pos hdup]; exact Or.inl ⟨_, rfl⟩
            · rw [if_neg hdup]
              refine Or.inr ⟨rfl, ?_⟩
              rw [edgesOf_append]
              exact acyclic_insert hac
                (fun hr => hcirc ((hasCircular_iff_reachable _ _ _).mpr hr))
  · intro a b hedge hne hfa hfb ty2
    unfold create_dependency
    cases hft : findActiveTask tasks b with
    | none => exact absurd hft hfb
    | some t =>
      cases hfd : findActiveTask tasks a with
      | none => exact absurd hfd hfa
      | some t2 =>
        rw [if_neg (Ne.symm hne)]
        have hcirc : hasCircularDependency deps b a = true :=
          (hasCircular_iff_reachable deps b a).mpr
            (Relation.ReflTransGen.single hedge)
        rw [if_pos hcirc]

/-- Concrete run of the C1 theorem: the one-edge store `1 depends on 2` is
acyclic and reversing the edge is rejected as a cycle. -/
theorem create_dependency_acyclic_invariant_witness :
    Acyclic (edgesOf [⟨1, 2, "blocks"⟩]) ∧
    create_dependency [⟨1, false⟩, ⟨2, false⟩] [⟨1, 2, "blocks"⟩] 2 1 "relates_to"
      = .error "Circular dependency detected" := by
  have hac : Acyclic (edgesOf [⟨1, 2, "blocks"⟩]) := by
    intro e he hr
    simp only [edgesOf, List.map_cons, List.map_nil, List.mem_singleton] at he
    subst he
    have hcirc : hasCircularDependency [⟨1, 2, "blocks"⟩] 1 2 = true :=
      (hasCircular_iff_reachable _ 1 2).mpr hr
    exact absurd hcirc (by decide)
  refine ⟨hac, ?_⟩
  exact (create_dependency_acyclic_invariant
      [⟨1, false⟩, ⟨2, false⟩] [⟨1, 2, "blocks"⟩] 2 1 "relates_to" hac).2
    1 2 (by decide) (by decide) (by decide) (by decide) "relates_to"

lemma bfsMeasure_init_lt_fuel (edges : List (Nat × Nat)) (dep : Nat) :
    bfsMeasure edges (dep :: edges.map (fun e => e.2)) [] [dep]
      < bfsFuel edges := by
  have hfilter :
      ((dep :: edges.map (fun e => e.2)).filter
        (fun x => decide (¬ x ∈ ([] : List Nat)))) =
      dep :: edges.map (fun e => e.2) := by simp
  simp only [bfsMeasure, hfilter, List.length_cons, List.length_map,
    List.length_nil, bfsFuel]
  omega

/-- A run of the traversal from `[dep]` with any sufficient fuel answers
reachability. -/
lemma bfs_run_iff (edges : List (Nat × Nat)) (task dep : Nat) {fuel : Nat}
    (hf : bfsMeasure edges (dep :: edges.map (fun e => e.2)) [] [dep] < fuel) :
    (bfsStep edges task fuel [] [dep] = true ↔ Reachable edges dep task) := by
  constructor
  · intro h
    obtain ⟨s, hs, hr⟩ := bfsStep_sound _ _ _ _ _ h
    rcases List.mem_singleton.mp hs with rfl
    exact hr
  · intro hr
    apply bfsStep_complete edges task (dep :: edges.map (fun e => e.2))
    · intro e he
      exact List.mem_cons_of_mem _ (List.mem_map.mpr ⟨e, he, rfl⟩)
    · exact hf
    · intro x hx
      rcases List.mem_singleton.mp hx with rfl
      exact List.mem_cons_self _ _
    · simp
    · intro v hv; cases hv
    · exact ⟨dep, Or.inr (List.mem_singleton.mpr rfl), hr⟩

/-- C9: the breadth-first circular-dependency check returns `true` exactly
when `task` is reachable from `dep` along existing depends-on edges, and its
answer is already stable at the chosen fuel — granting the traversal any
extra fuel (i.e. letting the Python `while` loop run on) cannot change it,
so the visited-set traversal terminates with that answer on every finite
edge set, cyclic or diamond-shaped alike. -/
theorem has_circular_dependency_correct (deps : List TaskDependency)
    (task dep : Nat) :
    (hasCircularDependency deps task dep = true ↔
      Reachable (edgesOf deps) dep task) ∧
    (∀ extra : Nat,
      bfsStep (edgesOf deps) task (bfsFuel (edgesOf deps) + extra) [] [dep]
        = hasCircularDependency deps task dep) := by
  constructor
  · exact hasCircular_iff_reachable deps task dep
  · intro extra
    have hm := bfsMeasure_init_lt_fuel (edgesOf deps) dep
    have h1 := bfs_run_iff (edgesOf deps) task dep
      (lt_of_lt_of_le hm (Nat.le_add_right _ extra))
    have h2 := hasCircular_iff_reachable deps task dep
    by_cases hr : Reachable (edgesOf deps) dep task
    · rw [h1.mpr hr, h2.mpr hr]
    · rcases Bool.eq_false_or_eq_true
          (bfsStep (edgesOf deps) task (bfsFuel (edgesOf deps) + extra) [] [dep])
        with hb | hb
      · exact absurd (h1.mp hb) hr
      · rcases Bool.eq_false_or_eq_true
            (hasCircularDependency deps task dep) with hb2 | hb2
        · exact absurd (h2.mp hb2) hr
        · rw [hb, hb2]

/-- C2 counterexample: in a store already containing both `(1, 2)` and
`(2, 1)`, re-inserting the existing edge `(1, 2)` is rejected by the cycle
check, not by the duplicate-edge check — the code tests for a cycle before
testing whether the exact ordered edge already exists, so the error is not
the one the claimed precondition order predicts. -/
theorem create_dependency_check_order_counterexample :
    ((1, 2) ∈ edgesOf [⟨1, 2, "blocks"⟩, ⟨2, 1, "blocks"⟩]) ∧
    create_dependency [⟨1, false⟩, ⟨2, false⟩]
        [⟨1, 2, "blocks"⟩, ⟨2, 1, "blocks"⟩] 1 2 "blocks"
      = .error "Circular dependency detected" ∧
    "Circular dependency detected" ≠ "Dependency already exists" :=
  ⟨by decide, rfl, by decide⟩

/-- C2 amended: `create_dependency` checks its preconditions in the order
(1) both tasks exist and are non-deleted, (2) `task_id ≠ depends_on_task_id`,
(3) inserting the edge creates no cycle, (4) the exact ordered edge does not
already exist — each with its distinct failure reason, the error being that
of the first violated precondition in this order; in particular a
self-dependency on an existing non-deleted task always fails with the
self-dependency validation error. -/
theorem create_dependency_error_order (tasks : List Task)
    (deps : List TaskDependency) (tid dot : Nat) (ty : String) :
    (findActiveTask tasks tid = none →
      create_dependency tasks deps tid dot ty = .error "Task not found") ∧
    (findActiveTask tasks tid ≠ none → findActiveTask tasks dot = none →
      create_dependency tasks deps tid dot ty
        = .error "Dependency task not found") ∧
    (findActiveTask tasks tid ≠ none → findActiveTask tasks dot ≠ none →
      tid = dot →
      create_dependency tasks deps tid dot ty
        = .error "Task cannot depend on itself") ∧
    (findActiveTask tasks tid ≠ none → findActiveTask tasks dot ≠ none →
      tid ≠ dot → Reachable (edgesOf deps) dot tid →
      create_dependency tasks deps tid dot ty
        = .error "Circular dependency detected") ∧
    (findActiveTask tasks tid ≠ none → findActiveTask tasks dot ≠ none →
      tid ≠ dot → ¬ Reachable (edgesOf deps) dot tid →
      (∃ d ∈ deps, d.task_id = tid ∧ d.depends_on_task_id = dot) →
      create_dependency tasks deps tid dot ty
        = .error "Dependency already exists") ∧
    (findActiveTask tasks tid ≠ none → findActiveTask tasks dot ≠ none →
      tid ≠ dot → ¬ Reachable (edgesOf deps) dot tid →
      (¬ ∃ d ∈ deps, d.task_id = tid ∧ d.depends_on_task_id = dot) →
      create_dependency tasks deps tid dot ty
        = .ok (deps ++ [{ task_id := tid, depends_on_task_id := dot,
                          type := ty }])) := by
  have hdup_iff : (deps.find? (fun d =>
      decide (d.task_id = tid ∧ d.depends_on_task_id = dot))).isSome = true ↔
      ∃ d ∈ deps, d.task_id = tid ∧ d.depends_on_task_id = dot := by
    rw [List.find?_isSome]
    constructor
    · rintro ⟨d, hd, hpd⟩
      exact ⟨d, hd, of_decide_eq_true hpd⟩
    · rintro ⟨d, hd, hpd⟩
      exact ⟨d, hd, decide_eq_true hpd⟩
  refine ⟨?_, ?_, ?_, ?_, ?_, ?_⟩
  · intro h1
    unfold create_dependency
    rw [h1]
  · intro h1 h2
    unfold create_dependency
    cases hft : findActiveTask tasks tid with
    | none => exact absurd hft h1
    | some t => rw [h2]
  · intro h1 h2 h3
    unfold create_dependency
    cases hft : findActiveTask tasks tid with
    | none => exact absurd hft h1
    | some t =>
      cases hfd : findActiveTask tasks dot with
      | none => exact absurd hfd h2
      | some t2 => rw [if_pos h3]
  · intro h1 h2 h3 h4
    unfold create_dependency
    cases hft : findActiveTask tasks tid with
    | none => exact absurd hft h1
    | some t =>
      cases hfd : findActiveTask tasks dot with
      | none => exact absurd hfd h2
      | some t2 =>
        rw [if_neg h3, if_pos ((hasCircular_iff_reachable deps tid dot).mpr h4)]
  · intro h1 h2 h3 h4 h5
    unfold create_dependency
    cases hft : findActiveTask tasks tid with
    | none => exact absurd hft h1
    | some t =>
      cases hfd : findActiveTask tasks dot with
      | none => exact absurd hfd h2
      | some t2 =>
        rw [if_neg h3,
          if_neg (fun hc => h4 ((hasCircular_iff_reachable deps tid dot).mp hc)),
          if_pos (hdup_iff.mpr h5)]
  · intro h1 h2 h3 h4 h5
    unfold create_dependency
    cases hft : findActiveTask tasks tid with
    | none => exact absurd hft h1
    | some t =>
      cases hfd : findActiveTask tasks dot with
      | none => exact absurd hfd h2
      | some t2 =>
        rw [if_neg h3,
          if_neg (fun hc => h4 ((hasCircular_iff_reachable deps tid dot).mp hc)),
          if_neg (fun hd => h5 (hdup_iff.mp hd))]

/-- Concrete run of the C2 amended theorem: a self-dependency on the existing
task `1` fails with the self-dependency error. -/
theorem create_dependency_error_order_witness :
    findActiveTask [⟨1, false⟩] 1 ≠ none ∧
    create_dependency [⟨1, false⟩] [] 1 1 "blocks"
      = .error "Task cannot depend on itself" :=
  ⟨by decide,
    (create_dependency_error_order [⟨1, false⟩] [] 1 1 "blocks").2.2.1
      (by decide) (by decide) rfl⟩

/-- A `UserRole` assignment row;
`scope_type ∈ {organization, project, team}`. -/
structure UserRole where
  user_id : Nat
  role_id : Nat
  scope_type : String
  scope_id : Option Nat
  deriving DecidableEq, Repr

/-- A `Role` reference row. -/
structure Role where
  id : Nat
  name : String
  deriving DecidableEq, Repr

/-- A `Permission` catalog row. -/
structure Permission where
  id : Nat
  resource : String
  action : String
  deriving DecidableEq, Repr

/-- A `RolePermission` edge row. -/
structure RolePermission where
  role_id : Nat
  permission_id : Nat
  deriving DecidableEq, Repr

/-- The query `UserRole.find(user_id == u, scope_type == "organization",
scope_id == None)`. -/
def orgRoleRows (userRoles : List UserRole) (user_id : Nat) : List UserRole :=
  userRoles.filter (fun ur =>
    decide (ur.user_id = user_id ∧ ur.scope_type = "organization" ∧
      ur.scope_id = none))

/-- `PermissionService.check_permission`. -/
def check_permission (userRoles : List UserRole)
    (permissions : List Permission) (rolePermissions : List RolePermission)
    (user_id : Nat) (resource action : String)
    (scope_type : Option String) (scope_id : Option Nat) : Bool :=
  let user_roles : List UserRole :=
    match scope_type, scope_id with
    | some st, some sid =>
        userRoles.filter (fun ur =>
          decide (ur.user_id = user_id ∧ ur.scope_type = st ∧
            ur.scope_id = some sid))
          ++ orgRoleRows userRoles user_id
    | _, _ => orgRoleRows userRoles user_id
  let role_ids := user_roles.map (fun ur => ur.role_id)
  if role_ids = [] then false
  else
    match permissions.find? (fun p =>
        decide (p.resource = resource ∧ p.action = action)) with
    | none => false
    | some permission =>
        (rolePermissions.filter (fun rp =>
          decide (rp.permission_id = permission.id))).any
          (fun rp => role_ids.contains rp.role_id)

/-- One row of the projection returned by `get_user_roles`. -/
structure UserRoleEntry where
  role_id : Nat
  role_name : String
  scope_type : String
  scope_id : Option Nat
  deriving DecidableEq, Repr

/-- The Redis cache, keyed by the user id of `user_roles:{user_id}`. -/
abbrev Cache := List (Nat × List UserRoleEntry)

/-- `cache_get`: `None` models both a miss and an unavailable cache. -/
def cache_get (cache : Cache) (key : Nat) : Option (List UserRoleEntry) :=
  (cache.find? (fun kv => decide (kv.1 = key))).map (fun kv => kv.2)

/-- `cache_set` (`setex` overwrites the key). -/
def cache_set (cache : Cache) (key : Nat) (value : List UserRoleEntry) :
    Cache :=
  (key, value) :: cache.filter (fun kv => decide (¬ kv.1 = key))

/-- `cache_delete`. -/
def cache_delete (cache : Cache) (key : Nat) : Cache :=
  cache.filter (fun kv => decide (¬ kv.1 = key))

/-- Python `role_dict.get(rid, Role(name="Unknown")).name` where `role_dict`
is a dict comprehension (the last row per id wins, hence the reverse find). -/
def roleName (roles : List Role) (rid : Nat) : String :=
  match roles.reverse.find? (fun r => decide (r.id = rid)) with
  | some r => r.name
  | none => "Unknown"

/-- `PermissionService.get_user_roles`, returning the projection together
with the cache as left after the call. -/
def get_user_roles (cache : Cache) (userRoles : List UserRole)
    (roles : List Role) (user_id : Nat) :
    List UserRoleEntry × Cache :=
  match cache_get cache user_id with
  | some cached => (cached, cache)
  | none =>
    let user_roles := userRoles.filter (fun ur => decide (ur.user_id = user_id))
    if user_roles = [] then ([], cache)
    else
      let role_ids := user_roles.map (fun ur => ur.role_id)
      let result := user_roles.map (fun (ur : UserRole) =>
        ({ role_id := ur.role_id,
           role_name := roleName
             (roles.filter (fun r => role_ids.contains r.id)) ur.role_id,
           scope_type := ur.scope_type,
           scope_id := ur.scope_id } : UserRoleEntry))
      (result, cache_set cache user_id result)

lemma cache_get_set (cache : Cache) (key : Nat) (v : List UserRoleEntry) :
    cache_get (cache_set cache key v) key = some v := by
  simp [cache_get, cache_set]

lemma cache_get_delete (cache : Cache) (key : Nat) :
    cache_get (cache_delete cache key) key = none := by
  have h : (cache.filter (fun kv => decide (¬ kv.1 = key))).find?
      (fun kv => decide (kv.1 = key)) = none := by
    rw [List.find?_eq_none]
    intro kv hkv
    have hne := (List.mem_filter.mp hkv).2
    simp only [decide_eq_true_eq] at hne
    simp [hne]
  simp [cache_get, cache_delete, h]

/-- A user whose only assignment row is the organization-wide role `R` has
exactly that row as organization-scope role set. -/
lemma orgRoleRows_single {userRoles : List UserRole} {uid R : Nat}
    (h : userRoles.filter (fun ur => decide (ur.user_id = uid))
      = [⟨uid, R, "organization", none⟩]) :
    orgRoleRows userRoles uid = [⟨uid, R, "organization", none⟩] := by
  have key : orgRoleRows userRoles uid
      = (userRoles.filter (fun ur => decide (ur.user_id = uid))).filter
          (fun ur =>
            decide (ur.scope_type = "organization" ∧ ur.scope_id = none)) := by
    rw [List.filter_filter]
    apply List.filter_congr
    intro ur _
    simp [orgRoleRows, Bool.and_comm, Bool.and_assoc, Bool.and_left_comm]
  rw [key, h]
  simp

/-- C3: `check_permission` fails closed — an empty resolved role set, an
unregistered (resource, action) pair, or no resolved role mapped to any
matching permission each yield `false` without surfacing an error — it is
deterministic across repeated calls on an unchanged store, and for a user
whose only assignment is an organization-wide role `R` it answers `true`
exactly when the seeded catalog registers (resource, action) and maps `R`
to that permission. -/
theorem check_permission_spec (userRoles : List UserRole)
    (permissions : List Permission) (rolePermissions : List RolePermission)
    (user_id : Nat) (resource action : String) :
    (orgRoleRows userRoles user_id = [] →
      check_permission userRoles permissions rolePermissions user_id
        resource action none none = false) ∧
    ((∀ p ∈ permissions, ¬ (p.resource = resource ∧ p.action = action)) →
      check_permission userRoles permissions rolePermissions user_id
        resource action none none = false) ∧
    ((∀ p ∈ permissions, p.resource = resource → p.action = action →
        ∀ rp ∈ rolePermissions, rp.permission_id = p.id →
          ¬ rp.role_id ∈ (orgRoleRows userRoles user_id).map
            (fun ur => ur.role_id)) →
      check_permission userRoles permissions rolePermissions user_id
        resource action none none = false) ∧
    (check_permission userRoles permissions rolePermissions user_id
        resource action none none
      = check_permission userRoles permissions rolePermissions user_id
        resource action none none) ∧
    (∀ R : Nat,
      userRoles.filter (fun ur => decide (ur.user_id = user_id))
        = [⟨user_id, R, "organization", none⟩] →
      (∀ p ∈ permissions, ∀ q ∈ permissions,
        p.resource = q.resource → p.action = q.action → p = q) →
      (check_permission userRoles permissions rolePermissions user_id
          resource action none none = true ↔
        ∃ p ∈ permissions, p.resource = resource ∧ p.action = action ∧
          ∃ rp ∈ rolePermissions, rp.role_id = R ∧
            rp.permission_id = p.id)) := by
  refine ⟨?_, ?_, ?_, rfl, ?_⟩
  · intro horg
    simp [check_permission, horg]
  · intro hnone
    have hfind : permissions.find? (fun p =>
        decide (p.resource = resource ∧ p.action = action)) = none := by
      rw [List.find?_eq_none]
      intro p hp
      simpa using hnone p hp
    simp only [check_permission, hfind, ite_self]
  · intro hno
    cases hfind : permissions.find? (fun p =>
        decide (p.resource = resource ∧ p.action = action)) with
    | none => simp only [check_permission, hfind, ite_self]
    | some p =>
      have hp : p ∈ permissions := List.mem_of_find?_eq_some hfind
      have hpm : p.resource = resource ∧ p.action = action := by
        simpa using List.find?_some hfind
      have hany' : (rolePermissions.filter (fun rp =>
          decide (rp.permission_id = p.id))).any
          (fun rp => ((orgRoleRows userRoles user_id).map
            (fun ur => ur.role_id)).contains rp.role_id) = false := by
        rw [List.any_eq_false]
        intro rp hrp
        have h1 : rp.permission_id = p.id := by
          simpa using (List.mem_filter.mp hrp).2
        have h2 := hno p hp hpm.1 hpm.2 rp (List.mem_filter.mp hrp).1 h1
        simpa using h2
      simp only [check_permission, hfind, hany', ite_self]
  · intro R hu huni
    have horg := orgRoleRows_single hu
    cases hfind : permissions.find? (fun p =>
        decide (p.resource = resource ∧ p.action = action)) with
    | none =>
      have hfe := List.find?_eq_none.mp hfind
      have hL : check_permission userRoles permissions rolePermissions
          user_id resource action none none = false := by
        simp only [check_permission, horg, hfind, List.map_cons, List.map_nil]
        rw [if_neg (by simp : ¬ ([R] : List Nat) = [])]
      rw [hL]
      simp only [Bool.false_eq_true, false_iff]
      rintro ⟨p, hp, hr, ha, -⟩
      exact absurd (⟨hr, ha⟩ : p.resource = resource ∧ p.action = action)
        (by simpa using hfe p hp)
    | some p =>
      have hp : p ∈ permissions := List.mem_of_find?_eq_some hfind
      have hpm : p.resource = resource ∧ p.action = action := by
        simpa using List.find?_some hfind
      have hL : check_permission userRoles permissions rolePermissions
          user_id resource action none none
          = (rolePermissions.filter (fun rp =>
              decide (rp.permission_id = p.id))).any
              (fun rp => ([R] : List Nat).contains rp.role_id) := by
        simp only [check_permission, horg, hfind, List.map_cons, List.map_nil]
        rw [if_neg (by simp : ¬ ([R] : List Nat) = [])]
      rw [hL, List.any_eq_true]
      constructor
      · rintro ⟨rp, hrp, hc⟩
        have hrpm := List.mem_filter.mp hrp
        have hpid : rp.permission_id = p.id := by simpa using hrpm.2
        have hrid : rp.role_id = R := by simpa using hc
        exact ⟨p, hp, hpm.1, hpm.2, rp, hrpm.1, hrid, hpid⟩
      · rintro ⟨q, hq, hqr, hqa, rp, hrp, hrid, hpidq⟩
        have hqp : q = p :=
          huni q hq p hp (hqr.trans hpm.1.symm) (hqa.trans hpm.2.symm)
        refine ⟨rp, List.mem_filter.mpr ⟨hrp, ?_⟩, by simp [hrid]⟩
        simp [hpidq, hqp]

/-- Concrete run of the C3 theorem: a user holding the single
organization-wide role `3` which the catalog maps to `(task, update)`. -/
theorem check_permission_spec_witness :
    ([⟨7, 3, "organization", none⟩] : List UserRole).filter
      (fun ur => decide (ur.user_id = 7)) = [⟨7, 3, "organization", none⟩] ∧
    check_permission [⟨7, 3, "organization", none⟩] [⟨10, "task", "update"⟩]
      [⟨3, 10⟩] 7 "task" "update" none none = true := by
  refine ⟨by decide, ?_⟩
  exact ((check_permission_spec [⟨7, 3, "organization", none⟩]
      [⟨10, "task", "update"⟩] [⟨3, 10⟩] 7 "task" "update").2.2.2.2 3
      (by decide) (by decide)).mpr
    ⟨⟨10, "task", "update"⟩, by decide, rfl, rfl, ⟨3, 10⟩, by decide, rfl, rfl⟩

/-- C8: `get_user_roles` returns a cached projection unmodified on a cache
hit; after a populating call, revoking every assignment of the user and
calling again without invalidation yields the stale pre-revoke projection,
while calling after deleting the cache key yields the freshly recomputed
empty list. -/
theorem get_user_roles_cache_first (cache : Cache)
    (userRoles userRoles2 : List UserRole) (roles : List Role)
    (user_id : Nat) :
    (∀ v, cache_get cache user_id = some v →
      get_user_roles cache userRoles roles user_id = (v, cache)) ∧
    (∀ r1 c1, cache_get cache user_id = none →
      userRoles.filter (fun ur => decide (ur.user_id = user_id)) ≠ [] →
      userRoles2.filter (fun ur => decide (ur.user_id = user_id)) = [] →
      get_user_roles cache userRoles roles user_id = (r1, c1) →
      (get_user_roles c1 userRoles2 roles user_id = (r1, c1) ∧
        get_user_roles (cache_delete c1 user_id) userRoles2 roles user_id
          = ([], cache_delete c1 user_id))) := by
  constructor
  · intro v hv
    simp [get_user_roles, hv]
  · intro r1 c1 hmiss hne hrev hr1
    simp only [get_user_roles, hmiss] at hr1
    rw [if_neg hne] at hr1
    rw [Prod.mk.injEq] at hr1
    obtain ⟨hr, hc⟩ := hr1
    subst hr
    subst hc
    constructor
    · simp [get_user_roles, cache_get_set]
    · simp [get_user_roles, cache_get_delete, hrev]

/-- Concrete run of the C8 theorem: populate on a miss, read the stale
projection after revoking the only role, read the fresh empty projection
after deleting the key. -/
theorem get_user_roles_cache_first_witness :
    cache_get [] 7 = none ∧
    ([⟨7, 3, "organization", none⟩] : List UserRole).filter
      (fun ur => decide (ur.user_id = 7)) ≠ [] ∧
    ([] : List UserRole).filter (fun ur => decide (ur.user_id = 7)) = [] ∧
    get_user_roles [(7, [⟨3, "Manager", "organization", none⟩])] [] [⟨3, "Manager"⟩] 7
      = ([⟨3, "Manager", "organization", none⟩],
         [(7, [⟨3, "Manager", "organization", none⟩])]) ∧
    get_user_roles
        (cache_delete [(7, [⟨3, "Manager", "organization", none⟩])] 7) []
        [⟨3, "Manager"⟩] 7
      = ([], cache_delete [(7, [⟨3, "Manager", "organization", none⟩])] 7) := by
  have h := (get_user_roles_cache_first [] [⟨7, 3, "organization", none⟩] []
      [⟨3, "Manager"⟩] 7).2
    [⟨3, "Manager", "organization", none⟩]
    [(7, [⟨3, "Manager", "organization", none⟩])]
    rfl (by decide) rfl rfl
  exact ⟨rfl, by decide, rfl, h.1, h.2⟩

/-- C10 counterexample: a user with no role assignments but a stale cache
entry does not get the empty list recomputed from the assignment store —
the call returns the stale cached projection. -/
theorem get_user_roles_no_assignments_counterexample :
    ([] : List UserRole).filter (fun ur => decide (ur.user_id = 7)) = [] ∧
    get_user_roles [(7, [⟨3, "Manager", "organization", none⟩])] [] [] 7
      ≠ ([], [(7, [⟨3, "Manager", "organization", none⟩])]) ∧
    (get_user_roles [(7, [⟨3, "Manager", "organization", none⟩])] [] [] 7).1
      = [⟨3, "Manager", "organization", none⟩] :=
  ⟨rfl, by decide, rfl⟩

/-- C10 amended: for every user with no role assignments and no cache entry
under their key, `get_user_roles` returns the empty list and leaves the
cache exactly unchanged — an empty role set is never written to the cache,
so such a call recomputes from the assignment store and creates no cache
entry a later call could hit. -/
theorem get_user_roles_empty_frame (cache : Cache)
    (userRoles : List UserRole) (roles : List Role) (user_id : Nat)
    (hmiss : cache_get cache user_id = none)
    (hnone : userRoles.filter (fun ur => decide (ur.user_id = user_id)) = []) :
    get_user_roles cache userRoles roles user_id = ([], cache) := by
  simp [get_user_roles, hmiss, hnone]

/-- Concrete run of the C10 amended theorem. -/
theorem get_user_roles_empty_frame_witness :
    cache_get [(3, [⟨1, "Admin", "organization", none⟩])] 7 = none ∧
    get_user_roles [(3, [⟨1, "Admin", "organization", none⟩])]
      [⟨5, 2, "organization", none⟩] [⟨2, "Member"⟩] 7
      = ([], [(3, [⟨1, "Admin", "organization", none⟩])]) :=
  ⟨rfl, get_user_roles_empty_frame _ _ _ 7 rfl rfl⟩

/-- A `WorkflowTransition` subdocument. -/
structure WorkflowTransition where
  from_status : String
  to_status : String
  allowed_roles : List String
  deriving DecidableEq, Repr

/-- A `Workflow` document; `deleted` models `deleted_at`. -/
structure Workflow where
  id : Nat
  project_id : Nat
  name : String
  description : Option String
  statuses : List String
  transitions : List WorkflowTransition
  is_default : Bool
  created_by : Nat
  deleted : Bool
  deriving DecidableEq, Repr

/-- A `Project` row; `deleted` models `deleted_at`. -/
structure Project where
  id : Nat
  deleted : Bool
  deriving DecidableEq, Repr

/-- `WorkflowService.get_project_workflow`. -/
def get_project_workflow (workflows : List Workflow) (project_id : Nat) :
    Option Workflow :=
  workflows.find? (fun w =>
    decide (w.project_id = project_id ∧ w.is_default = true ∧
      w.deleted = false))

/-- `WorkflowService.create_workflow`.  The Python loop saves each matching
default workflow with `is_default = False` and then inserts the new row;
saving a fetched row back is a pointwise update of the store. -/
def create_workflow (projects : List Project) (workflows : List Workflow)
    (new_id project_id : Nat) (name : String) (description : Option String)
    (statuses : List String) (transitions : List WorkflowTransition)
    (is_default : Bool) (created_by : Nat) :
    Except String (List Workflow) :=
  match projects.find? (fun p =>
      decide (p.id = project_id ∧ p.deleted = false)) with
  | none => .error "Project not found"
  | some _ =>
    let cleared :=
      if is_default then
        workflows.map (fun w =>
          if w.project_id = project_id ∧ w.is_default = true ∧
              w.deleted = false
          then { w with is_default := false } else w)
      else workflows
    .ok (cleared ++ [{ id := new_id, project_id := project_id, name := name,
                       description := description, statuses := statuses,
                       transitions := transitions, is_default := is_default,
                       created_by := created_by, deleted := false }])

/-- `WorkflowService.list_workflows` (the API route and the default-reset in
`update_workflow` call it with `skip = 0`, `limit = 100`). -/
def list_workflows (workflows : List Workflow) (project_id : Option Nat)
    (skip limit : Nat) : List Workflow :=
  let q := workflows.filter (fun w => decide (w.deleted = false))
  let q2 : List Workflow :=
    match project_id with
    | some pid => q.filter (fun w => decide (w.project_id = pid))
    | none => q
  (q2.drop skip).take limit

/-- The `WorkflowUpdate` payload of the `PUT /workflows/{id}` route. -/
structure WorkflowUpdate where
  name : Option String
  description : Option String
  statuses : Option (List String)
  transitions : Option (List WorkflowTransition)
  is_default : Option Bool
  deriving DecidableEq, Repr

/-- The field updates of the `update_workflow` route applied to the fetched
document (Python truthiness: an empty string or list is skipped). -/
def applyWorkflowUpdate (w : Workflow) (u : WorkflowUpdate) : Workflow :=
  let w1 := match u.name with
    | some s => if s = "" then w else { w with name := s }
    | none => w
  let w2 := match u.description with
    | some d => { w1 with description := some d }
    | none => w1
  let w3 := match u.statuses with
    | some l => if l = [] then w2 else { w2 with statuses := l }
    | none => w2
  let w4 := match u.transitions with
    | some l => if l = [] then w3 else { w3 with transitions := l }
    | none => w3
  match u.is_default with
  | some b => { w4 with is_default := b }
  | none => w4

/-- The `update_workflow` API route: fetch the non-deleted workflow by id,
apply the payload, and if the payload sets `is_default = true` clear
`is_default` on the other workflows returned by
`list_workflows(project_id)` — i.e. only the first 100 non-deleted
workflows of the project — then save the updated document. -/
def update_workflow (workflows : List Workflow) (workflow_id : Nat)
    (u : WorkflowUpdate) : Except String (List Workflow) :=
  match workflows.find? (fun w =>
      decide (w.id = workflow_id ∧ w.deleted = false)) with
  | none => .error "Workflow not found"
  | some workflow =>
    let updated := applyWorkflowUpdate workflow u
    let cleared :=
      if u.is_default = some true then
        let existing_defaults :=
          list_workflows workflows (some workflow.project_id) 0 100
        workflows.map (fun w =>
          if w ∈ existing_defaults ∧ ¬ w.id = workflow.id ∧
              w.is_default = true
          then { w with is_default := false } else w)
      else workflows
    .ok (cleared.map (fun w => if w.id = workflow.id then updated else w))

/-- Number of non-deleted default workflows of a project. -/
def countDefaults (workflows : List Workflow) (project_id : Nat) : Nat :=
  (workflows.filter (fun w =>
    decide (w.project_id = project_id ∧ w.is_default = true ∧
      w.deleted = false))).length

/-- The hard-coded `default_transitions` table (`dict.get` with default
`[]`). -/
def default_transitions (current_status : String) : List String :=
  match current_status with
  | "Backlog" => ["To Do"]
  | "To Do" => ["In Progress", "Backlog"]
  | "In Progress" => ["Review", "To Do"]
  | "Review" => ["Done", "In Progress"]
  | "Done" => []
  | _ => []

/-- `WorkflowService.validate_transition` (`task_id` is accepted and unused,
as in the source). -/
def validate_transition (workflows : List Workflow) (cache : Cache)
    (userRoles : List UserRole) (roles : List Role)
    (project_id task_id : Nat) (from_status to_status : String)
    (user_id : Nat) : Bool × Option String :=
  match get_project_workflow workflows project_id with
  | none => (true, none)
  | some workflow =>
    match workflow.transitions.find? (fun t =>
        decide (t.from_status = from_status ∧ t.to_status = to_status)) with
    | none =>
      (false, some ("Transition from '" ++ from_status ++ "' to '" ++
        to_status ++ "' is not defined in workflow"))
    | some transition =>
      if transition.allowed_roles = [] then (true, none)
      else
        let role_names :=
          ((get_user_roles cache userRoles roles user_id).1).map
            (fun e => e.role_name)
        if role_names.any (fun role =>
            transition.allowed_roles.contains role) then
          (true, none)
        else
          (false, some
            ("User does not have required role to perform this transition. Required roles: "
              ++ String.intercalate ", " transition.allowed_roles))

/-- `WorkflowService.get_available_transitions`. -/
def get_available_transitions (workflows : List Workflow) (cache : Cache)
    (userRoles : List UserRole) (roles : List Role)
    (project_id : Nat) (current_status : String) (user_id : Nat) :
    List String :=
  match get_project_workflow workflows project_id with
  | none => default_transitions current_status
  | some workflow =>
    let role_names :=
      ((get_user_roles cache userRoles roles user_id).1).map
        (fun e => e.role_name)
    (workflow.transitions.filter (fun t =>
        decide (t.from_status = current_status) &&
        (decide (t.allowed_roles = []) ||
          role_names.any (fun role => t.allowed_roles.contains role)))).map
      (fun t => t.to_status)

/-- C4: evaluation at the failing input.  A project with 102 non-deleted
workflows: 100 non-default rows, then a default row (id 2), then the row
being updated (id 1).  Before the update exactly one workflow is the
default; the update sets `is_default = true` on workflow 1, but the
default-reset loop iterates over `list_workflows(project_id)` — capped at
`limit = 100` — which misses the default at position 101, so two non-deleted
default workflows remain, violating the at-most-one-default invariant the
spec requires of the same logical operation. -/
theorem update_workflow_default_pagination_bug :
    countDefaults
        (List.replicate 100
            (⟨0, 0, "wf", none, [], [], false, 0, false⟩ : Workflow) ++
          [⟨2, 0, "wf", none, [], [], true, 0, false⟩,
           ⟨1, 0, "wf", none, [], [], false, 0, false⟩]) 0 = 1 ∧
    (update_workflow
        (List.replicate 100
            (⟨0, 0, "wf", none, [], [], false, 0, false⟩ : Workflow) ++
          [⟨2, 0, "wf", none, [], [], true, 0, false⟩,
           ⟨1, 0, "wf", none, [], [], false, 0, false⟩])
        1 ⟨none, none, none, none, some true⟩).map
      (fun l => countDefaults l 0) = .ok 2 :=
  ⟨rfl, rfl⟩

/-- C5: with no default custom workflow for the project,
`validate_transition` allows every transition for every user with no
reason, whatever the status pair. -/
theorem validate_transition_no_custom_workflow (workflows : List Workflow)
    (cache : Cache) (userRoles : List UserRole) (roles : List Role)
    (project_id task_id : Nat) (from_status to_status : String)
    (user_id : Nat)
    (hnone : get_project_workflow workflows project_id = none) :
    validate_transition workflows cache userRoles roles project_id task_id
      from_status to_status user_id = (true, none) := by
  simp [validate_transition, hnone]

/-- Concrete run of the C5 theorem on a status pair far outside the default
graph. -/
theorem validate_transition_no_custom_workflow_witness :
    get_project_workflow [] 5 = none ∧
    validate_transition [] [] [] [] 5 0 "Weird" "Nowhere" 7 = (true, none) :=
  ⟨rfl, validate_transition_no_custom_workflow [] [] [] [] 5 0
    "Weird" "Nowhere" 7 rfl⟩

lemma find?_unique {α : Type} {p : α → Bool} {l : List α} {a : α}
    (ha : a ∈ l) (hpa : p a = true)
    (huniq : ∀ b ∈ l, p b = true → b = a) : l.find? p = some a := by
  induction l with
  | nil => cases ha
  | cons x xs ih =>
    by_cases hpx : p x = true
    · have hxa : x = a := huniq x (List.mem_cons_self _ _) hpx
      subst hxa
      rw [List.find?_cons_of_pos _ hpx]
    · rcases List.mem_cons.mp ha with rfl | hax
      · exact absurd hpa hpx
      · rw [List.find?_cons_of_neg _ (by simpa using hpx)]
        exact ih hax (fun b hb hpb => huniq b (List.mem_cons_of_mem _ hb) hpb)

/-- C6: with a custom default workflow, `validate_transition` rejects a
status pair matching no defined transition with a reason naming the missing
edge; it rejects a matched transition whose non-empty `allowed_roles` the
user's resolved role names miss, with a reason enumerating the required
roles; and otherwise it allows the transition. -/
theorem validate_transition_custom_workflow (workflows : List Workflow)
    (cache : Cache) (userRoles : List UserRole) (roles : List Role)
    (project_id task_id : Nat) (from_status to_status : String)
    (user_id : Nat) (w : Workflow)
    (hw : get_project_workflow workflows project_id = some w) :
    ((∀ t ∈ w.transitions,
        ¬ (t.from_status = from_status ∧ t.to_status = to_status)) →
      validate_transition workflows cache userRoles roles project_id task_id
          from_status to_status user_id
        = (false, some ("Transition from '" ++ from_status ++ "' to '" ++
            to_status ++ "' is not defined in workflow"))) ∧
    (∀ t ∈ w.transitions, t.from_status = from_status →
      t.to_status = to_status →
      (∀ t2 ∈ w.transitions, t2.from_status = from_status →
        t2.to_status = to_status → t2 = t) →
      ((t.allowed_roles ≠ [] →
        (∀ r ∈ ((get_user_roles cache userRoles roles user_id).1).map
            (fun e => e.role_name), ¬ r ∈ t.allowed_roles) →
        validate_transition workflows cache userRoles roles project_id
            task_id from_status to_status user_id
          = (false, some
            ("User does not have required role to perform this transition. Required roles: "
              ++ String.intercalate ", " t.allowed_roles))) ∧
      ((t.allowed_roles = [] ∨
          ∃ r ∈ ((get_user_roles cache userRoles roles user_id).1).map
            (fun e => e.role_name), r ∈ t.allowed_roles) →
        validate_transition workflows cache userRoles roles project_id
            task_id from_status to_status user_id = (true, none)))) := by
  constructor
  · intro hmiss
    have hfind : w.transitions.find? (fun t =>
        decide (t.from_status = from_status ∧ t.to_status = to_status))
        = none := by
      rw [List.find?_eq_none]
      intro t ht
      simpa using hmiss t ht
    simp only [validate_transition, hw, hfind]
  · intro t ht htf htt huniq
    have hfind : w.transitions.find? (fun t =>
        decide (t.from_status = from_status ∧ t.to_status = to_status))
        = some t := by
      apply find?_unique ht (by simp [htf, htt])
      intro b hb hpb
      have hb' := of_decide_eq_true hpb
      exact huniq b hb hb'.1 hb'.2
    constructor
    · intro hne hdisj
      have hanyf : (((get_user_roles cache userRoles roles user_id).1).map
          (fun e => e.role_name)).any
          (fun role => t.allowed_roles.contains role) = false := by
        rw [List.any_eq_false]
        intro r hr
        simpa using hdisj r hr
      simp only [validate_transition, hw, hfind]
      rw [if_neg hne, if_neg (by rw [hanyf]; exact Bool.false_ne_true)]
    · intro hok
      simp only [validate_transition, hw, hfind]
      rcases hok with hempty | ⟨r, hr, hmem⟩
      · rw [if_pos hempty]
      · have hanyt : (((get_user_roles cache userRoles roles user_id).1).map
            (fun e => e.role_name)).any
            (fun role => t.allowed_roles.contains role) = true := by
          rw [List.any_eq_true]
          exact ⟨r, hr, by simpa using hmem⟩
        by_cases hempty : t.allowed_roles = []
        · rw [if_pos hempty]
        · rw [if_neg hempty, if_pos hanyt]

/-- Concrete run of the C6 theorem: the workflow with the single transition
Todo→Done gated on "Manager", evaluated for a user holding only "Member":
the reason names "Manager". -/
theorem validate_transition_custom_workflow_witness :
    get_project_workflow
        [⟨1, 5, "wf", none, ["Todo", "Done"],
          [⟨"Todo", "Done", ["Manager"]⟩], true, 0, false⟩] 5
      = some ⟨1, 5, "wf", none, ["Todo", "Done"],
          [⟨"Todo", "Done", ["Manager"]⟩], true, 0, false⟩ ∧
    validate_transition
        [⟨1, 5, "wf", none, ["Todo", "Done"],
          [⟨"Todo", "Done", ["Manager"]⟩], true, 0, false⟩]
        [] [⟨7, 2, "organization", none⟩] [⟨2, "Member"⟩] 5 0 "Todo" "Done" 7
      = (false, some "User does not have required role to perform this transition. Required roles: Manager") := by
  refine ⟨rfl, ?_⟩
  have h := ((validate_transition_custom_workflow
      [⟨1, 5, "wf", none, ["Todo", "Done"],
        [⟨"Todo", "Done", ["Manager"]⟩], true, 0, false⟩]
      [] [⟨7, 2, "organization", none⟩] [⟨2, "Member"⟩] 5 0 "Todo" "Done" 7
      ⟨1, 5, "wf", none, ["Todo", "Done"],
        [⟨"Todo", "Done", ["Manager"]⟩], true, 0, false⟩ rfl).2
    ⟨"Todo", "Done", ["Manager"]⟩ (by decide) rfl rfl (by decide)).1
    (by decide) (by decide)
  rw [h]
  rfl

/-- C7: with no custom workflow, `get_available_transitions` returns exactly
the fixed default-table row for the current status, with no role filtering;
with a custom workflow, a status is offered exactly when some defined
transition leaves the current status towards it and its `allowed_roles` is
empty or intersects the user's resolved role names — transitions the user
cannot execute are silently omitted. -/
theorem get_available_transitions_spec (workflows : List Workflow)
    (cache : Cache) (userRoles : List UserRole) (roles : List Role)
    (project_id user_id : Nat) :
    (get_project_workflow workflows project_id = none →
      (get_available_transitions workflows cache userRoles roles project_id
          "Backlog" user_id = ["To Do"] ∧
        get_available_transitions workflows cache userRoles roles project_id
          "To Do" user_id = ["In Progress", "Backlog"] ∧
        get_available_transitions workflows cache userRoles roles project_id
          "In Progress" user_id = ["Review", "To Do"] ∧
        get_available_transitions workflows cache userRoles roles project_id
          "Review" user_id = ["Done", "In Progress"] ∧
        get_available_transitions workflows cache userRoles roles project_id
          "Done" user_id = [])) ∧
    (∀ w, get_project_workflow workflows project_id = some w →
      ∀ current_status s,
        (s ∈ get_available_transitions workflows cache userRoles roles
            project_id current_status user_id ↔
          ∃ t ∈ w.transitions, t.from_status = current_status ∧
            t.to_status = s ∧
            (t.allowed_roles = [] ∨
              ∃ r ∈ ((get_user_roles cache userRoles roles user_id).1).map
                (fun e => e.role_name), r ∈ t.allowed_roles))) := by
  constructor
  · intro h
    refine ⟨?_, ?_, ?_, ?_, ?_⟩ <;>
      · simp only [get_available_transitions, h]
        rfl
  · intro w hw current_status s
    simp only [get_available_transitions, hw]
    constructor
    · intro hs
      obtain ⟨t, htf, hts⟩ := List.mem_map.mp hs
      obtain ⟨htmem, hpred⟩ := List.mem_filter.mp htf
      rw [Bool.and_eq_true] at hpred
      obtain ⟨hfrom, hrest⟩ := hpred
      refine ⟨t, htmem, of_decide_eq_true hfrom, hts, ?_⟩
      rw [Bool.or_eq_true] at hrest
      rcases hrest with h | h
      · exact Or.inl (of_decide_eq_true h)
      · obtain ⟨r, hr, hcont⟩ := List.any_eq_true.mp h
        exact Or.inr ⟨r, hr, by simpa using hcont⟩
    · rintro ⟨t, htmem, hfrom, hts, hrest⟩
      apply List.mem_map.mpr
      refine ⟨t, List.mem_filter.mpr ⟨htmem, ?_⟩, hts⟩
      rw [Bool.and_eq_true]
      refine ⟨decide_eq_true hfrom, ?_⟩
      rw [Bool.or_eq_true]
      rcases hrest with h | ⟨r, hr, hmem⟩
      · exact Or.inl (decide_eq_true h)
      · exact Or.inr (List.any_eq_true.mpr ⟨r, hr, by simpa using hmem⟩)

/-- Concrete run of the C7 theorem: with no custom workflow, "Done" offers
nothing and "Backlog" offers exactly "To Do". -/
theorem get_available_transitions_spec_witness :
    get_project_workflow [] 5 = none ∧
    get_available_transitions [] [] [] [] 5 "Done" 7 = [] ∧
    get_available_transitions [] [] [] [] 5 "Backlog" 7 = ["To Do"] := by
  have h := (get_available_transitions_spec [] [] [] [] 5 7).1 rfl
  exact ⟨rfl, h.2.2.2.2, h.1⟩

example : hasCircularDependency [⟨1, 2, "blocks"⟩] 1 2 = false := by decide

example : hasCircularDependency [⟨1, 2, "blocks"⟩, ⟨2, 3, "blocks"⟩] 3 1 = true := by decide

example : hasCircularDependency [⟨2, 3, "blocks"⟩] 2 3 = false := by decide

example : hasCircularDependency [⟨1, 2, "blocks"⟩, ⟨2, 1, "blocks"⟩] 1 2 = true := by decide

example :
    create_dependency [⟨1, false⟩, ⟨2, false⟩]
      [⟨1, 2, "blocks"⟩, ⟨2, 1, "blocks"⟩] 1 2 "blocks" =
    .error "Circular dependency detected" := rfl

example :
    create_dependency [⟨1, false⟩, ⟨2, false⟩] [] 1 2 "blocks" =
    .ok [⟨1, 2, "blocks"⟩] := rfl

end TaskManager
